import Mathlib

/-!
# Verification of the batch find-and-replace engine

A shallow embedding of `rslib/src/findreplace.rs`: the `FindReplaceContext`
constructor, the per-text substitution step `replace_text`, and the two
collection operations `find_and_replace` / `find_and_replace_inner`.

Modelling conventions:

* Field text, pattern text and field names are `List Char` (`Str`).
* The external regex engine is modelled on its documented interface,
  restricted to the literal-pattern fragment: a compiled pattern is the
  literal character sequence searched for, `replace_all` replaces every
  non-overlapping occurrence scanning left to right, and it returns
  `Cow::Borrowed` exactly when the pattern found no match in the input
  (otherwise a freshly built `Cow::Owned` string, even when that string is
  byte-identical to the input).  Whether a pattern string compiles at all is
  the engine's verdict, abstracted as a boolean carried by the pattern
  source.
* The store collaborators that live outside this source file
  (`storage.note_ids_by_notetype`, `storage.get_note`, `get_notetype`,
  `update_note_inner`, `transact`) are modelled from the spec, as noted on
  each definition.  The store also keeps an audit log of performed note
  writes (`writeLog`) so that "a record is persisted" is observable, and a
  set of note ids on which persistence fails (`failUpdate`), abstracting the
  fallibility of `update_note_inner`.
* `Option::unwrap` on a missing note (line 57 of the source) is modelled as
  the distinguished outcome `AnkiError.panicked`, so that panics are
  distinguishable from returned errors.
-/

/-- Field text, pattern text and field names, as character sequences. -/
abbrev Str : Type := List Char

/-- Model of `std::borrow::Cow<'_, str>` as produced by `Regex::replace_all`:
`borrowed` stands for `Cow::Borrowed` (the original text, returned exactly
when the pattern has no match), `owned s` for `Cow::Owned(s)` (the freshly
built replacement result, returned exactly when at least one match was
replaced). -/
inductive Cow where
  | borrowed : Cow
  | owned : Str → Cow
deriving DecidableEq

/-- Does `needle` occur as a contiguous substring of `hay`?  The empty
needle matches everywhere, as the empty regex does. -/
def containsSub (needle : Str) : Str → Bool
  | [] => needle.isEmpty
  | c :: rest => needle.isPrefixOf (c :: rest) || containsSub needle rest

/-- One left-to-right scan replacing every non-overlapping occurrence of the
literal `needle` by `repl`.  `fuel` bounds the number of scan steps; since
every step consumes at least one character of the remaining text,
`hay.length` steps always suffice (the zero-fuel branch is never reached
when called with that bound). -/
def replaceAllGo (needle repl : Str) : Nat → Str → Str
  | 0, hay => hay
  | _ + 1, [] => []
  | fuel + 1, c :: rest =>
    if needle.isPrefixOf (c :: rest) then
      repl ++ replaceAllGo needle repl fuel (rest.drop (needle.length - 1))
    else
      c :: replaceAllGo needle repl fuel rest

/-- `Regex::replace_all` on the literal fragment: an empty pattern matches
at every position (before every character and at the end), otherwise every
non-overlapping occurrence is replaced left to right. -/
def replaceAllStr (needle repl hay : Str) : Str :=
  if needle = [] then
    repl ++ hay.flatMap (fun c => c :: repl)
  else
    replaceAllGo needle repl hay.length hay

/-- Model of a compiled `regex::Regex`, restricted to the literal-pattern
fragment: the compiled pattern is the literal character sequence to search
for. -/
structure Regex where
  pat : Str
deriving DecidableEq

/-- A pattern string together with the external regex engine's compilation
verdict.  Whether a given pattern string compiles is decided by the engine
(an external collaborator), so it is abstracted as the boolean
`compilable`. -/
structure PatternSrc where
  text : Str
  compilable : Bool
deriving DecidableEq

/-- Model of `regex::Regex::new`: compilation succeeds or fails according to
the engine's verdict on the pattern source. -/
def Regex.new (p : PatternSrc) : Except Unit Regex :=
  if p.compilable then .ok ⟨p.text⟩ else .error ()

/-- The error outcomes observable from this module.  `invalidInput` models
`AnkiError::invalid_input` (used both for a pattern that fails to compile
and for a missing note type); `dbError` models any storage-layer error
propagated by `?` out of `update_note_inner`; `panicked` models a Rust
panic (the `.unwrap()` on a missing note), which is not an `AnkiError` in
the source but must be distinguishable from a returned error. -/
inductive AnkiError where
  | invalidInput : String → AnkiError
  | dbError : AnkiError
  | panicked : AnkiError
deriving DecidableEq

/-- `FindReplaceContext`: the note ids to process, the compiled search
pattern, the replacement text, and the optional target field name. -/
structure FindReplaceContext where
  nids : List Nat
  search : Regex
  replacement : Str
  field_name : Option Str
deriving DecidableEq

/-- `FindReplaceContext::new`: compile the pattern (mapping a compilation
failure to `invalid_input "invalid regex"`) and record the other arguments
unchanged.  No store is involved: the function has no store parameter. -/
def FindReplaceContext.new (nids : List Nat) (search_re : PatternSrc) (repl : Str)
    (fname : Option Str) : Except AnkiError FindReplaceContext :=
  match Regex.new search_re with
  | .error _ => .error (.invalidInput "invalid regex")
  | .ok re =>
    .ok { nids := nids, search := re, replacement := repl, field_name := fname }

/-- `FindReplaceContext::replace_text`:
`self.search.replace_all(text, self.replacement.as_str())`.  Per the regex
engine's documented contract this yields `Cow::Borrowed` exactly when the
pattern has no match in `text`, and otherwise the freshly built substituted
string as `Cow::Owned` — even when that string is byte-identical to the
input. -/
def FindReplaceContext.replace_text (ctx : FindReplaceContext) (text : Str) : Cow :=
  if containsSub ctx.search.pat text then
    .owned (replaceAllStr ctx.search.pat ctx.replacement text)
  else
    .borrowed

/-- The text a field holds after the substitution step: the owned
replacement result when the pattern matched, the original text otherwise. -/
def applySubst (ctx : FindReplaceContext) (text : Str) : Str :=
  match ctx.replace_text text with
  | .owned otxt => otxt
  | .borrowed => text

/-- A note: its id, the id of its note type (schema), and its ordered field
texts. -/
structure Note where
  id : Nat
  ntid : Nat
  fields : List Str
deriving DecidableEq

/-- A note type (schema): its id and its ordered field names. -/
structure Notetype where
  id : Nat
  fields : List Str
deriving DecidableEq

/-- Modelled from the spec: `Schema.ResolveFieldOrdinal(name) ->
Option<ordinal>` (`NoteType::get_field_ord`, defined outside this source
file): the position of the named field in the schema's ordered field list,
`none` when no field carries that name. -/
def Notetype.get_field_ord (nt : Notetype) (name : Str) : Option Nat :=
  nt.fields.findIdx? (fun f => f == name)

/-- Modelled from the spec: the record store the engine collaborates with.
`notetypes` and `notes` are the stored schemas and records; `usn` is the
current update sequence number (`col.usn()`); `failUpdate` is the set of
note ids on which the persistence operation fails (abstracting the
fallibility of `update_note_inner`); `writeLog` is an audit log recording,
in order, the id of every note write performed. -/
structure Store where
  notetypes : List Notetype
  notes : List Note
  usn : Nat
  failUpdate : List Nat
  writeLog : List Nat
deriving DecidableEq

/-- Modelled from the spec: `LoadSchema` (`Collection::get_notetype`):
the stored note type with the given id, if any. -/
def Store.get_notetype (s : Store) (ntid : Nat) : Option Notetype :=
  s.notetypes.find? (fun nt => nt.id == ntid)

/-- Modelled from the spec: `LoadRecord` (`storage.get_note`): the stored
note with the given id, if any. -/
def Store.get_note (s : Store) (nid : Nat) : Option Note :=
  s.notes.find? (fun n => n.id == nid)

/-- Modelled from the spec: the successful effect of `UpdateRecord` — the
note is stored back under its id and the write is logged. -/
def Store.updateNote (s : Store) (n : Note) : Store :=
  { s with
    notes := s.notes.map (fun m => if m.id == n.id then n else m),
    writeLog := s.writeLog ++ [n.id] }

/-- Modelled from the spec: `Collection::update_note_inner` — persists the
note's field changes (and regenerates derived data, out of scope here).  Its
`Result` is propagated by `?` in the source; failure is abstracted by the
store's `failUpdate` set. -/
def Store.update_note_inner (s : Store) (n : Note) : Except AnkiError Store :=
  if n.id ∈ s.failUpdate then .error .dbError else .ok (s.updateNote n)

/-- Insert a (note type id, note id) pair into a list sorted by note type
id, keeping the relative order of pairs with equal note type ids. -/
def insertByNtid (p : Nat × Nat) : List (Nat × Nat) → List (Nat × Nat)
  | [] => [p]
  | q :: rest => if p.1 < q.1 then p :: q :: rest else q :: insertByNtid p rest

/-- Stable insertion sort of (note type id, note id) pairs by note type
id. -/
def sortByNtid (l : List (Nat × Nat)) : List (Nat × Nat) :=
  l.foldr insertByNtid []

/-- Modelled from the spec: `storage.note_ids_by_notetype`
(`ResolveSchemaForRecords`): each given note id that exists in the store is
resolved to its (note type id, note id) pair, and the pairs are delivered
grouped by note type id; ids absent from the store are not returned. -/
def Store.note_ids_by_notetype (s : Store) (nids : List Nat) : List (Nat × Nat) :=
  sortByNtid (nids.filterMap (fun nid => (s.get_note nid).map (fun n => (n.ntid, nid))))

/-- `Itertools::group_by(|tup| tup.0)`: fold contiguous runs of pairs
sharing a key into (key, values in order) groups. -/
def groupRuns : List (Nat × Nat) → List (Nat × List Nat)
  | [] => []
  | (k, v) :: rest =>
    match groupRuns rest with
    | [] => [(k, [v])]
    | (k2, vs) :: gs =>
      if k = k2 then (k, v :: vs) :: gs else (k, [v]) :: (k2, vs) :: gs

/-- The all-fields branch of the per-note loop: every field is substituted
in order; the note is marked changed when any substitution returned an owned
value. -/
def replaceAllFields (ctx : FindReplaceContext) : List Str → List Str × Bool
  | [] => ([], false)
  | txt :: rest =>
    let r := replaceAllFields ctx rest
    match ctx.replace_text txt with
    | .owned otxt => (otxt :: r.1, true)
    | .borrowed => (txt :: r.1, r.2)

/-- The single-field branch of the per-note loop:
`note.fields.get_mut(ord)` guards an out-of-range ordinal, so nothing
happens when `ord` is not a valid index; otherwise that one field is
substituted and the note is marked changed when the substitution returned an
owned value. -/
def replaceFieldAt (ctx : FindReplaceContext) (fields : List Str) (ord : Nat) :
    List Str × Bool :=
  match fields[ord]? with
  | none => (fields, false)
  | some txt =>
    match ctx.replace_text txt with
    | .owned otxt => (fields.set ord otxt, true)
    | .borrowed => (fields, false)

/-- The per-group field resolution:
`ctx.field_name.as_ref().and_then(|n| nt.get_field_ord(n))`. -/
def fieldOrdFor (ctx : FindReplaceContext) (nt : Notetype) : Option Nat :=
  ctx.field_name.bind (fun n => nt.get_field_ord n)

/-- One note's substitution step (the `match field_ord` in the source):
substitute all fields when no ordinal was resolved, the single guarded field
otherwise, returning the updated note and its changed flag. -/
def processNote (ctx : FindReplaceContext) (fieldOrd : Option Nat) (note : Note) :
    Note × Bool :=
  match fieldOrd with
  | none =>
    let r := replaceAllFields ctx note.fields
    ({ note with fields := r.1 }, r.2)
  | some ord =>
    let r := replaceFieldAt ctx note.fields ord
    ({ note with fields := r.1 }, r.2)

/-- The inner per-note loop of `find_and_replace_inner` over one schema
group: load the note (`get_note(nid)?.unwrap()` — a panic when the note is
absent), substitute, and when the note changed persist it via
`update_note_inner` and count it.  Returns the number of changed notes in
the group and the resulting store. -/
def processGroupNotes (ctx : FindReplaceContext) (fieldOrd : Option Nat) :
    Store → List Nat → Except AnkiError (Nat × Store)
  | s, [] => .ok (0, s)
  | s, nid :: rest =>
    match s.get_note nid with
    | none => .error .panicked
    | some note =>
      let r := processNote ctx fieldOrd note
      if r.2 then
        match s.update_note_inner r.1 with
        | .error e => .error e
        | .ok s2 =>
          match processGroupNotes ctx fieldOrd s2 rest with
          | .error e => .error e
          | .ok (n, s3) => .ok (n + 1, s3)
      else
        processGroupNotes ctx fieldOrd s rest

/-- The outer per-group loop of `find_and_replace_inner`: resolve the
group's note type (`invalid_input "missing note type"` when absent), resolve
the target field ordinal once for the group, process the group's notes, and
accumulate the changed count.  (`CardGenContext::new(&nt, usn)` only feeds
the modelled `update_note_inner`, so `usn` has no further observable
role.) -/
def processGroups (ctx : FindReplaceContext) (usn : Nat) :
    Store → List (Nat × List Nat) → Except AnkiError (Nat × Store)
  | s, [] => .ok (0, s)
  | s, (ntid, group) :: gs =>
    match s.get_notetype ntid with
    | none => .error (.invalidInput "missing note type")
    | some nt =>
      match processGroupNotes ctx (fieldOrdFor ctx nt) s group with
      | .error e => .error e
      | .ok (n, s2) =>
        match processGroups ctx usn s2 gs with
        | .error e => .error e
        | .ok (m, s3) => .ok (n + m, s3)

/-- `Collection::find_and_replace_inner`: resolve and group the given note
ids by note type, then run the per-group loop. -/
def find_and_replace_inner (ctx : FindReplaceContext) (usn : Nat) (s : Store) :
    Except AnkiError (Nat × Store) :=
  processGroups ctx usn s (groupRuns (s.note_ids_by_notetype ctx.nids))

/-- `Collection::find_and_replace`: run the inner pass inside `transact`.
Modelled from the spec: the transaction commits the resulting store on
success and rolls back to the original store on any error, so the caller
observes either the fully updated store or the untouched one. -/
def find_and_replace (ctx : FindReplaceContext) (s : Store) :
    Except AnkiError Nat × Store :=
  match find_and_replace_inner ctx s.usn s with
  | .ok (n, s2) => (.ok n, s2)
  | .error e => (.error e, s)

/-- Field index `j` is targeted under field resolution result `fieldOrd`:
every index when no ordinal was resolved, exactly the resolved index
otherwise. -/
def targetedOrd (fieldOrd : Option Nat) (j : Nat) : Prop :=
  fieldOrd = none ∨ fieldOrd = some j

/-- The pattern matches in no targeted field of any record of the store:
for each note whose note type resolves, if no ordinal resolves then no field
of the note contains a match, and if an ordinal resolves then the field at
that ordinal (when it exists) contains no match. -/
def noTargetedMatch (ctx : FindReplaceContext) (s : Store) : Bool :=
  s.notes.all (fun note =>
    match s.get_notetype note.ntid with
    | none => true
    | some nt =>
      match fieldOrdFor ctx nt with
      | none => note.fields.all (fun txt => !(containsSub ctx.search.pat txt))
      | some ord =>
        match note.fields[ord]? with
        | none => true
        | some txt => !(containsSub ctx.search.pat txt))

/-- Concrete inputs for the claim-level witnesses and counterexamples. -/
def c1nt : Notetype := ⟨1, [['F'], ['B']]⟩

def c1note : Note := ⟨1, 1, [['a'], ['a']]⟩

def c1ctx : FindReplaceContext := ⟨[1], ⟨['a']⟩, ['b'], some ['F']⟩

def c1ctxB : FindReplaceContext := ⟨[1], ⟨['a']⟩, ['b'], some ['Z']⟩

def c8note : Note := ⟨1, 1, [['a'], ['a']]⟩

def c8ctx : FindReplaceContext := ⟨[1], ⟨['a']⟩, ['b'], none⟩

def c10note : Note := ⟨1, 1, [['a']]⟩

def c10ctx : FindReplaceContext := ⟨[1], ⟨['a']⟩, ['b'], some ['Z']⟩

def c10s : Store := ⟨[⟨1, [['F']]⟩], [c10note], 0, [], []⟩

def c3s : Store := ⟨[⟨10, [['F']]⟩], [⟨1, 10, [['a']]⟩], 0, [], []⟩

def c3ctx : FindReplaceContext := ⟨[1], ⟨['a']⟩, ['a'], none⟩

def c3wctx : FindReplaceContext := ⟨[1], ⟨['a']⟩, ['b'], none⟩

def c3ws : Store := ⟨[⟨10, [['F']]⟩], [⟨1, 10, [['a']]⟩], 0, [], []⟩

def c3ws2 : Store := ⟨[⟨10, [['F']]⟩], [⟨1, 10, [['b']]⟩], 0, [], [1]⟩

def c2s : Store := ⟨[⟨1, [['F']]⟩], [], 0, [], []⟩

def c2ctx : FindReplaceContext := ⟨[1], ⟨['a']⟩, ['b'], none⟩

def c2ws : Store := ⟨[], [⟨1, 5, [['a']]⟩], 0, [], []⟩

def c2wctx : FindReplaceContext := ⟨[1], ⟨['a']⟩, ['b'], none⟩

def c4s : Store := ⟨[⟨5, [['F']]⟩], [⟨1, 5, [['a']]⟩, ⟨2, 9, [['a']]⟩], 0, [], []⟩

def c4ctx : FindReplaceContext := ⟨[1, 2], ⟨['a']⟩, ['b'], none⟩

def c6s : Store := ⟨[⟨1, [['F']]⟩], [⟨1, 1, [['x']]⟩], 0, [], []⟩

def c6ctx : FindReplaceContext := ⟨[1], ⟨['a']⟩, ['b'], none⟩

def c9s : Store := ⟨[⟨1, [['F']]⟩], [⟨1, 1, [['a']]⟩], 0, [], []⟩

def c9s2 : Store := ⟨[⟨1, [['F']]⟩], [⟨1, 1, [['b']]⟩], 0, [], [1]⟩

def c9ctx : FindReplaceContext := ⟨[1], ⟨['a']⟩, ['b'], none⟩

/-- The observable relation between the store a run started from and the
store after some processing: note types, the failure set and the update
sequence number are untouched, and every note id resolves to a note of the
same note type as before (in particular, exactly the same ids resolve). -/
def storeSim (s s2 : Store) : Prop :=
  s2.notetypes = s.notetypes ∧ s2.failUpdate = s.failUpdate ∧ s2.usn = s.usn ∧
    ∀ nid : Nat, (s2.get_note nid).map (fun n => n.ntid) =
      (s.get_note nid).map (fun n => n.ntid)

theorem replace_text_eq_borrowed (ctx : FindReplaceContext) (txt : Str)
    (h : containsSub ctx.search.pat txt = false) : ctx.replace_text txt = .borrowed := by
  simp [FindReplaceContext.replace_text, h]

theorem replace_text_eq_owned (ctx : FindReplaceContext) (txt : Str)
    (h : containsSub ctx.search.pat txt = true) :
    ctx.replace_text txt = .owned (replaceAllStr ctx.search.pat ctx.replacement txt) := by
  simp [FindReplaceContext.replace_text, h]

theorem applySubst_of_no_match (ctx : FindReplaceContext) (txt : Str)
    (h : containsSub ctx.search.pat txt = false) : applySubst ctx txt = txt := by
  simp [applySubst, replace_text_eq_borrowed ctx txt h]

theorem replaceAllFields_fst (ctx : FindReplaceContext) (l : List Str) :
    (replaceAllFields ctx l).1 = l.map (applySubst ctx) := by
  induction l with
  | nil => rfl
  | cons txt rest ih =>
    simp only [replaceAllFields, List.map]
    cases h : ctx.replace_text txt with
    | borrowed => simp [applySubst, h, ih]
    | owned o => simp [applySubst, h, ih]

theorem replaceAllFields_snd (ctx : FindReplaceContext) (l : List Str) :
    (replaceAllFields ctx l).2 = l.any (fun t => containsSub ctx.search.pat t) := by
  induction l with
  | nil => rfl
  | cons txt rest ih =>
    simp only [replaceAllFields, List.any_cons]
    cases h : containsSub ctx.search.pat txt with
    | false => simp [replace_text_eq_borrowed ctx txt h, ih]
    | true => simp [replace_text_eq_owned ctx txt h]

theorem replaceFieldAt_fst_getElem (ctx : FindReplaceContext) (fields : List Str)
    (ord j : Nat) :
    ((replaceFieldAt ctx fields ord).1)[j]? =
      if j = ord then (fields[j]?).map (applySubst ctx) else fields[j]? := by
  unfold replaceFieldAt
  cases h : fields[ord]? with
  | none =>
    by_cases hj : j = ord
    · subst hj; simp [h]
    · simp [hj]
  | some txt =>
    cases hc : containsSub ctx.search.pat txt with
    | false =>
      by_cases hj : j = ord
      · subst hj
        simp [replace_text_eq_borrowed ctx txt hc, h,
          applySubst_of_no_match ctx txt hc]
      · simp [replace_text_eq_borrowed ctx txt hc, hj]
    | true =>
      by_cases hj : j = ord
      · subst hj
        rcases List.getElem?_eq_some.mp h with ⟨hlt, _⟩
        simp [replace_text_eq_owned ctx txt hc,
          List.getElem?_set_eq_of_lt _ hlt, h, applySubst]
      · simp [replace_text_eq_owned ctx txt hc,
          List.getElem?_set_ne (fun he => hj he.symm), hj]

theorem replaceFieldAt_snd (ctx : FindReplaceContext) (fields : List Str) (ord : Nat) :
    (replaceFieldAt ctx fields ord).2 =
      ((fields[ord]?).map (fun t => containsSub ctx.search.pat t)).getD false := by
  unfold replaceFieldAt
  cases h : fields[ord]? with
  | none => simp
  | some txt =>
    cases hc : containsSub ctx.search.pat txt with
    | false => simp [replace_text_eq_borrowed ctx txt hc, hc]
    | true => simp [replace_text_eq_owned ctx txt hc, hc]

theorem replaceFieldAt_fst_length (ctx : FindReplaceContext) (fields : List Str)
    (ord : Nat) : ((replaceFieldAt ctx fields ord).1).length = fields.length := by
  unfold replaceFieldAt
  cases h : fields[ord]? with
  | none => rfl
  | some txt =>
    cases hc : containsSub ctx.search.pat txt with
    | false => simp [replace_text_eq_borrowed ctx txt hc]
    | true => simp [replace_text_eq_owned ctx txt hc]

theorem processNote_id (ctx : FindReplaceContext) (fo : Option Nat) (note : Note) :
    (processNote ctx fo note).1.id = note.id := by
  cases fo <;> rfl

theorem processNote_ntid (ctx : FindReplaceContext) (fo : Option Nat) (note : Note) :
    (processNote ctx fo note).1.ntid = note.ntid := by
  cases fo <;> rfl

theorem processNote_none_fields (ctx : FindReplaceContext) (note : Note) :
    (processNote ctx none note).1.fields = note.fields.map (applySubst ctx) := by
  simp [processNote, replaceAllFields_fst]

theorem processNote_some_getElem (ctx : FindReplaceContext) (ord : Nat) (note : Note)
    (j : Nat) :
    ((processNote ctx (some ord) note).1.fields)[j]? =
      if j = ord then (note.fields[j]?).map (applySubst ctx) else note.fields[j]? := by
  simp [processNote, replaceFieldAt_fst_getElem]

theorem processNote_fields_length (ctx : FindReplaceContext) (fo : Option Nat)
    (note : Note) : (processNote ctx fo note).1.fields.length = note.fields.length := by
  cases fo with
  | none => simp [processNote, replaceAllFields_fst]
  | some ord => simp [processNote, replaceFieldAt_fst_length]

/-- C1: for a record processed by `run` with note type `nt`: when a target
field name is given and resolves to an ordinal in `nt`, only the field at
that ordinal is substituted (every other position is returned unchanged);
when no field name is given, or the given name is absent from `nt`, every
field of the record is substituted.  The record is never skipped and no
error arises from an absent field name: the substitution step is total and
yields the fully substituted field list. -/
theorem c1_field_resolution (ctx : FindReplaceContext) (nt : Notetype) (note : Note) :
    (∀ fname ord, ctx.field_name = some fname → nt.get_field_ord fname = some ord →
      ∀ j, (processNote ctx (fieldOrdFor ctx nt) note).1.fields[j]? =
        (if j = ord then (note.fields[j]?).map (applySubst ctx) else note.fields[j]?))
    ∧ ((ctx.field_name = none ∨
        ∃ fname, ctx.field_name = some fname ∧ nt.get_field_ord fname = none) →
      (processNote ctx (fieldOrdFor ctx nt) note).1.fields =
        note.fields.map (applySubst ctx)) := by
  constructor
  · intro fname ord hf ho j
    have hfo : fieldOrdFor ctx nt = some ord := by simp [fieldOrdFor, hf, ho]
    rw [hfo, processNote_some_getElem]
  · rintro (hnone | ⟨fname, hf, ho⟩)
    · have hfo : fieldOrdFor ctx nt = none := by simp [fieldOrdFor, hnone]
      rw [hfo, processNote_none_fields]
    · have hfo : fieldOrdFor ctx nt = none := by simp [fieldOrdFor, hf, ho]
      rw [hfo, processNote_none_fields]

/-- Witness for C1 at concrete inputs: with target field `F` resolving to
ordinal 0 in the schema, position 1 is left unchanged; with target field `Z`
absent from the schema, every field is substituted. -/
theorem c1_field_resolution_witness :
    (processNote c1ctx (fieldOrdFor c1ctx c1nt) c1note).1.fields[1]? = c1note.fields[1]?
    ∧ (processNote c1ctxB (fieldOrdFor c1ctxB c1nt) c1note).1.fields =
        c1note.fields.map (applySubst c1ctxB) := by
  constructor
  · have h := (c1_field_resolution c1ctx c1nt c1note).1 ['F'] 0 rfl rfl 1
    simpa using h
  · exact (c1_field_resolution c1ctxB c1nt c1note).2 (Or.inr ⟨['Z'], rfl, rfl⟩)

/-- C5: `FindReplaceContext::new` fails with the invalid-pattern error
exactly when the pattern fails to compile, and for every compilable pattern
it succeeds for every note-id list, replacement and optional field name,
recording the arguments unchanged.  No store is accessed: the constructor
has no store parameter at all. -/
theorem c5_invalid_pattern (nids : List Nat) (p : PatternSrc) (repl : Str)
    (fname : Option Str) :
    (p.compilable = false →
      FindReplaceContext.new nids p repl fname = .error (.invalidInput "invalid regex"))
    ∧ (p.compilable = true →
      FindReplaceContext.new nids p repl fname =
        .ok { nids := nids, search := ⟨p.text⟩, replacement := repl,
              field_name := fname }) := by
  constructor
  · intro h; simp [FindReplaceContext.new, Regex.new, h]
  · intro h; simp [FindReplaceContext.new, Regex.new, h]

/-- Witness for C5 at concrete inputs: an uncompilable pattern source is
rejected with the invalid-pattern error; a compilable one yields the
context. -/
theorem c5_invalid_pattern_witness :
    FindReplaceContext.new [1] ⟨['('], false⟩ ['b'] none =
      .error (.invalidInput "invalid regex")
    ∧ FindReplaceContext.new [1] ⟨['a'], true⟩ ['b'] none =
      .ok { nids := [1], search := ⟨['a']⟩, replacement := ['b'], field_name := none } := by
  exact ⟨(c5_invalid_pattern [1] ⟨['('], false⟩ ['b'] none).1 rfl,
         (c5_invalid_pattern [1] ⟨['a'], true⟩ ['b'] none).2 rfl⟩

/-- C7: for the empty record-id list, `run` returns a changed count of 0
and performs no writes: the store (its write log included) is returned
untouched. -/
theorem c7_empty_input (search : Regex) (repl : Str) (fname : Option Str) (s : Store) :
    find_and_replace
      { nids := [], search := search, replacement := repl, field_name := fname } s =
      (.ok 0, s) :=
  rfl

/-- C8: one record's substitution step preserves the record's identity, its
note type, its field count and the position of every field: the field at an
untargeted position is returned exactly as it was, and every position holds
either its original text or the substituted image of its original text —
nothing is inserted, dropped or reordered. -/
theorem c8_structure_preserved (ctx : FindReplaceContext) (fieldOrd : Option Nat)
    (note : Note) :
    (processNote ctx fieldOrd note).1.id = note.id
    ∧ (processNote ctx fieldOrd note).1.ntid = note.ntid
    ∧ (processNote ctx fieldOrd note).1.fields.length = note.fields.length
    ∧ (∀ j : Nat, ¬ targetedOrd fieldOrd j →
        (processNote ctx fieldOrd note).1.fields[j]? = note.fields[j]?)
    ∧ (∀ j : Nat, (processNote ctx fieldOrd note).1.fields[j]? = note.fields[j]?
        ∨ (processNote ctx fieldOrd note).1.fields[j]? =
            (note.fields[j]?).map (applySubst ctx)) := by
  refine ⟨processNote_id ctx fieldOrd note, processNote_ntid ctx fieldOrd note,
    processNote_fields_length ctx fieldOrd note, ?_, ?_⟩
  · intro j hj
    cases fieldOrd with
    | none => exact absurd (Or.inl rfl) hj
    | some ord =>
      have hne : j ≠ ord := fun he => hj (Or.inr (by rw [he]))
      rw [processNote_some_getElem]
      simp [hne]
  · intro j
    cases fieldOrd with
    | none =>
      right
      rw [processNote_none_fields]
      simp
    | some ord =>
      rw [processNote_some_getElem]
      by_cases hj : j = ord
      · right; simp [hj]
      · left; simp [hj]

/-- Witness for C8 at concrete inputs: with the single-field resolution
targeting ordinal 0, position 1 is untargeted and left exactly unchanged. -/
theorem c8_structure_preserved_witness :
    (processNote c8ctx (some 0) c8note).1.fields[1]? = c8note.fields[1]? :=
  (c8_structure_preserved c8ctx (some 0) c8note).2.2.2.1 1 (by simp [targetedOrd])

/-- C10: when the resolved ordinal is out of range for a record (the record
has fewer than `ord + 1` fields), the guarded access leaves the record
silently unchanged: no panic and no error occurs, no field is substituted
(in particular there is no fallback to all fields), the record is not
persisted and it does not contribute to the changed count — processing the
record is observably a no-op of the group loop. -/
theorem c10_out_of_range (ctx : FindReplaceContext) (ord : Nat) (note : Note)
    (h : note.fields.length ≤ ord) :
    processNote ctx (some ord) note = (note, false)
    ∧ ∀ (s : Store) (nid : Nat) (rest : List Nat), s.get_note nid = some note →
        processGroupNotes ctx (some ord) s (nid :: rest) =
          processGroupNotes ctx (some ord) s rest := by
  have hnone : note.fields[ord]? = none := List.getElem?_eq_none h
  have hpn : processNote ctx (some ord) note = (note, false) := by
    simp [processNote, replaceFieldAt, hnone]
  refine ⟨hpn, ?_⟩
  intro s nid rest hget
  simp [processGroupNotes, hget, hpn]

/-- Witness for C10 at concrete inputs: ordinal 5 on a one-field record
leaves the record unchanged and the group loop skips it without counting,
writing or failing. -/
theorem c10_out_of_range_witness :
    processNote c10ctx (some 5) c10note = (c10note, false)
    ∧ processGroupNotes c10ctx (some 5) c10s [1] =
        processGroupNotes c10ctx (some 5) c10s [] := by
  exact ⟨(c10_out_of_range c10ctx 5 c10note (by decide)).1,
         (c10_out_of_range c10ctx 5 c10note (by decide)).2 c10s 1 [] rfl⟩

theorem update_note_inner_ok (s : Store) (n : Note) (s2 : Store)
    (h : s.update_note_inner n = .ok s2) :
    s2 = s.updateNote n ∧ n.id ∉ s.failUpdate := by
  unfold Store.update_note_inner at h
  split at h
  · cases h
  · exact ⟨(Except.ok.inj h).symm, by assumption⟩

theorem processNote_snd_iff (ctx : FindReplaceContext) (fo : Option Nat) (note : Note) :
    (processNote ctx fo note).2 = true ↔
      ∃ j : Nat, ∃ txt, note.fields[j]? = some txt ∧ targetedOrd fo j ∧
        containsSub ctx.search.pat txt = true := by
  cases fo with
  | none =>
    have h2 : (processNote ctx none note).2 =
        note.fields.any (fun t => containsSub ctx.search.pat t) := by
      simp [processNote, replaceAllFields_snd]
    rw [h2, List.any_eq_true]
    constructor
    · rintro ⟨t, ht, hc⟩
      rcases List.mem_iff_getElem?.mp ht with ⟨j, hj⟩
      exact ⟨j, t, hj, Or.inl rfl, hc⟩
    · rintro ⟨j, t, hj, -, hc⟩
      exact ⟨t, List.mem_iff_getElem?.mpr ⟨j, hj⟩, hc⟩
  | some ord =>
    have h2 : (processNote ctx (some ord) note).2 =
        ((note.fields[ord]?).map (fun t => containsSub ctx.search.pat t)).getD false := by
      simp [processNote, replaceFieldAt_snd]
    rw [h2]
    cases hf : note.fields[ord]? with
    | none =>
      simp only [Option.map_none', Option.getD_none]
      constructor
      · intro hfalse; cases hfalse
      · rintro ⟨j, t, hj, htgt, hc⟩
        rcases htgt with h1 | h1
        · cases h1
        · have hje : ord = j := Option.some.inj h1
          rw [← hje, hf] at hj
          cases hj
    | some txt =>
      simp only [Option.map_some', Option.getD_some]
      constructor
      · intro hc
        exact ⟨ord, txt, hf, Or.inr rfl, hc⟩
      · rintro ⟨j, t, hj, htgt, hc⟩
        rcases htgt with h1 | h1
        · cases h1
        · have hje : ord = j := Option.some.inj h1
          rw [← hje, hf] at hj
          rw [← Option.some.inj hj] at hc
          exact hc

theorem processGroupNotes_writeLog (ctx : FindReplaceContext) (fo : Option Nat) :
    ∀ (nids : List Nat) (s : Store) (n : Nat) (s2 : Store),
      processGroupNotes ctx fo s nids = .ok (n, s2) →
      ∃ w, s2.writeLog = s.writeLog ++ w ∧ w.length = n := by
  intro nids
  induction nids with
  | nil =>
    intro s n s2 h
    simp only [processGroupNotes] at h
    obtain ⟨hn, hs⟩ : 0 = n ∧ s = s2 := by simpa using h
    exact ⟨[], by rw [← hs]; simp, by simp [← hn]⟩
  | cons nid rest ih =>
    intro s n s2 h
    simp only [processGroupNotes] at h
    split at h
    · cases h
    · next note hget =>
      split at h
      · split at h
        · cases h
        · next sU hu =>
          split at h
          · cases h
          · next m s3 hrec =>
            obtain ⟨hn, hs⟩ : m + 1 = n ∧ s3 = s2 := by simpa using h
            rcases update_note_inner_ok s _ sU hu with ⟨hUeq, -⟩
            rcases ih sU m s3 hrec with ⟨w, hw, hwl⟩
            refine ⟨(processNote ctx fo note).1.id :: w, ?_, ?_⟩
            · rw [← hs, hw, hUeq]
              simp [Store.updateNote]
            · rw [← hn]; simp [hwl]
      · rcases ih s n s2 h with ⟨w, hw, hwl⟩
        exact ⟨w, hw, hwl⟩

theorem processGroups_writeLog (ctx : FindReplaceContext) (usn : Nat) :
    ∀ (gs : List (Nat × List Nat)) (s : Store) (n : Nat) (s2 : Store),
      processGroups ctx usn s gs = .ok (n, s2) →
      ∃ w, s2.writeLog = s.writeLog ++ w ∧ w.length = n := by
  intro gs
  induction gs with
  | nil =>
    intro s n s2 h
    simp only [processGroups] at h
    obtain ⟨hn, hs⟩ : 0 = n ∧ s = s2 := by simpa using h
    exact ⟨[], by rw [← hs]; simp, by simp [← hn]⟩
  | cons g gs ih =>
    intro s n s2 h
    rcases g with ⟨ntid, group⟩
    simp only [processGroups] at h
    split at h
    · cases h
    · next nt hnt =>
      split at h
      · cases h
      · next k sG hG =>
        split at h
        · cases h
        · next m s3 hrec =>
          obtain ⟨hn, hs⟩ : k + m = n ∧ s3 = s2 := by simpa using h
          rcases processGroupNotes_writeLog ctx (fieldOrdFor ctx nt) group s k sG hG with
            ⟨w1, hw1, hl1⟩
          rcases ih sG m s3 hrec with ⟨w2, hw2, hl2⟩
          refine ⟨w1 ++ w2, ?_, ?_⟩
          · rw [← hs, hw2, hw1, List.append_assoc]
          · rw [← hn]; simp [hl1, hl2]

theorem find_and_replace_writeLog (ctx : FindReplaceContext) (s : Store) (n : Nat)
    (s2 : Store) (h : find_and_replace ctx s = (.ok n, s2)) :
    ∃ w, s2.writeLog = s.writeLog ++ w ∧ w.length = n := by
  unfold find_and_replace at h
  split at h
  · next k s3 hinner =>
    have hk : Except.ok (ε := AnkiError) k = .ok n := congrArg Prod.fst h
    have hs : s3 = s2 := congrArg Prod.snd h
    rw [← Except.ok.inj hk, ← hs]
    exact processGroups_writeLog ctx s.usn _ s k s3 hinner
  · next e hinner =>
    have : Except.error (α := Nat) e = .ok n := congrArg Prod.fst h
    cases this

/-- C3 counterexample: replacing `a` by `a` in a record whose only field is
`a` leaves every targeted field byte-identical to its input, yet `run`
returns a changed count of 1 and writes the record once (the write log
grows), because the substitution engine reports an owned value whenever the
pattern matched — not whenever the text differs.  The claim's "persisted iff
byte-wise different" is therefore false on the code. -/
theorem c3_identical_text_still_counted :
    (find_and_replace c3ctx c3s).1 = .ok 1
    ∧ (find_and_replace c3ctx c3s).2.notes = c3s.notes
    ∧ (find_and_replace c3ctx c3s).2.writeLog = c3s.writeLog ++ [1] :=
  ⟨rfl, rfl, rfl⟩

/-- C3 (amended): a record processed by `run` is counted and written
exactly when the pattern matched in at least one targeted field — even when
the substituted text is byte-identical to the input — and on a successful
run the changed count equals the number of note writes performed (each
counted record producing exactly one write-log entry). -/
theorem c3_persist_iff_match (ctx : FindReplaceContext) :
    (∀ (fo : Option Nat) (note : Note),
      ((processNote ctx fo note).2 = true ↔
        ∃ j : Nat, ∃ txt, note.fields[j]? = some txt ∧ targetedOrd fo j ∧
          containsSub ctx.search.pat txt = true))
    ∧ ∀ (s : Store) (n : Nat) (s2 : Store), find_and_replace ctx s = (.ok n, s2) →
        ∃ w, s2.writeLog = s.writeLog ++ w ∧ w.length = n :=
  ⟨fun fo note => processNote_snd_iff ctx fo note,
   fun s n s2 h => find_and_replace_writeLog ctx s n s2 h⟩

/-- Witness for C3 (amended) at concrete inputs: a matching field makes the
changed flag true, and a successful concrete run's write log grows by
exactly its changed count. -/
theorem c3_persist_iff_match_witness :
    (processNote c3wctx none ⟨1, 10, [['a']]⟩).2 = true
    ∧ ∃ w, c3ws2.writeLog = c3ws.writeLog ++ w ∧ w.length = 1 :=
  ⟨((c3_persist_iff_match c3wctx).1 none ⟨1, 10, [['a']]⟩).mpr
      ⟨0, ['a'], rfl, Or.inl rfl, rfl⟩,
   (c3_persist_iff_match c3wctx).2 c3ws 1 c3ws2 rfl⟩

theorem mem_insertByNtid (p q : Nat × Nat) (l : List (Nat × Nat)) :
    q ∈ insertByNtid p l ↔ q = p ∨ q ∈ l := by
  induction l with
  | nil => simp [insertByNtid]
  | cons r rest ih =>
    unfold insertByNtid
    split
    · simp [List.mem_cons]
    · rw [List.mem_cons, ih, List.mem_cons]
      tauto

theorem mem_sortByNtid (q : Nat × Nat) (l : List (Nat × Nat)) :
    q ∈ sortByNtid l ↔ q ∈ l := by
  induction l with
  | nil => simp [sortByNtid]
  | cons p rest ih =>
    have h : sortByNtid (p :: rest) = insertByNtid p (sortByNtid rest) := rfl
    rw [h, mem_insertByNtid, ih, List.mem_cons]

theorem mem_note_ids_by_notetype (s : Store) (nids0 : List Nat) (k v : Nat) :
    (k, v) ∈ s.note_ids_by_notetype nids0 ↔
      v ∈ nids0 ∧ ∃ note, s.get_note v = some note ∧ note.ntid = k := by
  unfold Store.note_ids_by_notetype
  rw [mem_sortByNtid, List.mem_filterMap]
  constructor
  · rintro ⟨nid, hmem, hf⟩
    rcases Option.map_eq_some'.mp hf with ⟨note, hn, hpair⟩
    obtain ⟨hk, hv⟩ : note.ntid = k ∧ nid = v := by simpa using hpair
    subst hv
    exact ⟨hmem, note, hn, hk⟩
  · rintro ⟨hv, note, hn, hk⟩
    exact ⟨v, hv, by simp [hn, hk]⟩

theorem groupRuns_nonempty (l : List (Nat × Nat)) :
    ∀ g ∈ groupRuns l, g.2 ≠ [] := by
  induction l with
  | nil => simp [groupRuns]
  | cons p rest ih =>
    rcases p with ⟨k, v⟩
    intro g hg
    simp only [groupRuns] at hg
    cases hgr : groupRuns rest with
    | nil =>
      rw [hgr] at hg
      simp at hg
      rw [hg]
      simp
    | cons g2 gs =>
      rcases g2 with ⟨k2, vs⟩
      rw [hgr] at hg
      simp only [] at hg
      by_cases hk : k = k2
      · rw [if_pos hk] at hg
        rcases List.mem_cons.mp hg with h1 | h2
        · rw [h1]; simp
        · exact ih g (by rw [hgr]; exact List.mem_cons_of_mem _ h2)
      · rw [if_neg hk] at hg
        rcases List.mem_cons.mp hg with h1 | h2
        · rw [h1]; simp
        · exact ih g (by rw [hgr]; exact h2)

theorem groupRuns_sound (l : List (Nat × Nat)) :
    ∀ g ∈ groupRuns l, ∀ v ∈ g.2, (g.1, v) ∈ l := by
  induction l with
  | nil => simp [groupRuns]
  | cons p rest ih =>
    rcases p with ⟨k, v0⟩
    intro g hg v hv
    simp only [groupRuns] at hg
    cases hgr : groupRuns rest with
    | nil =>
      rw [hgr] at hg
      simp at hg
      rw [hg] at hv
      simp at hv
      rw [hg, hv]
      simp
    | cons g2 gs =>
      rcases g2 with ⟨k2, vs⟩
      rw [hgr] at hg
      simp only [] at hg
      by_cases hk : k = k2
      · rw [if_pos hk] at hg
        rcases List.mem_cons.mp hg with h1 | h2
        · rw [h1] at hv
          simp only at hv
          rcases List.mem_cons.mp hv with hv1 | hv2
          · rw [h1, hv1]; simp
          · have hmem : (k2, v) ∈ rest :=
              ih (k2, vs) (by rw [hgr]; simp) v hv2
            rw [h1]
            simp only
            rw [hk]
            exact List.mem_cons_of_mem _ hmem
        · have hmem : (g.1, v) ∈ rest :=
            ih g (by rw [hgr]; exact List.mem_cons_of_mem _ h2) v hv
          exact List.mem_cons_of_mem _ hmem
      · rw [if_neg hk] at hg
        rcases List.mem_cons.mp hg with h1 | h2
        · rw [h1] at hv
          simp at hv
          rw [h1, hv]
          simp
        · have hmem : (g.1, v) ∈ rest :=
            ih g (by rw [hgr]; exact h2) v hv
          exact List.mem_cons_of_mem _ hmem

theorem groupRuns_complete (l : List (Nat × Nat)) :
    ∀ k v, (k, v) ∈ l → ∃ vs, (k, vs) ∈ groupRuns l ∧ v ∈ vs := by
  induction l with
  | nil => simp
  | cons p rest ih =>
    rcases p with ⟨k0, v0⟩
    intro k v hm
    rcases List.mem_cons.mp hm with h1 | h2
    · obtain ⟨hk, hv⟩ : k = k0 ∧ v = v0 := by simpa using h1
      subst hk; subst hv
      simp only [groupRuns]
      cases hgr : groupRuns rest with
      | nil => exact ⟨[v], by simp, by simp⟩
      | cons g2 gs =>
        rcases g2 with ⟨k2, vs⟩
        simp only []
        by_cases hk2 : k = k2
        · rw [if_pos hk2]
          exact ⟨v :: vs, by simp, by simp⟩
        · rw [if_neg hk2]
          exact ⟨[v], by simp, by simp⟩
    · rcases ih k v h2 with ⟨vs', hmem, hv⟩
      simp only [groupRuns]
      cases hgr : groupRuns rest with
      | nil => rw [hgr] at hmem; cases hmem
      | cons g2 gs =>
        rcases g2 with ⟨k2, vs2⟩
        rw [hgr] at hmem
        simp only []
        by_cases hk2 : k0 = k2
        · rw [if_pos hk2]
          rcases List.mem_cons.mp hmem with hh | hh
          · obtain ⟨hkk, hvv⟩ : k = k2 ∧ vs' = vs2 := by simpa using hh
            refine ⟨v0 :: vs2, ?_, ?_⟩
            · have : k = k0 := by rw [hkk, hk2]
              rw [this]; simp
            · rw [← hvv]; exact List.mem_cons_of_mem _ hv
          · exact ⟨vs', List.mem_cons_of_mem _ hh, hv⟩
        · rw [if_neg hk2]
          rcases List.mem_cons.mp hmem with hh | hh
          · exact ⟨vs', by rw [hh]; simp, hv⟩
          · exact ⟨vs', List.mem_cons_of_mem _ (List.mem_cons_of_mem _ hh), hv⟩

theorem find?_map_update (l : List Note) (n : Note) (nid : Nat) :
    (l.map (fun m => if m.id == n.id then n else m)).find? (fun m => m.id == nid) =
      (l.find? (fun m => m.id == nid)).map (fun m => if m.id == n.id then n else m) := by
  induction l with
  | nil => rfl
  | cons m rest ih =>
    have hid : (if m.id == n.id then n else m).id = m.id := by
      by_cases h : m.id = n.id <;> simp [h]
    by_cases hp : m.id = nid
    · rw [List.map_cons]
      rw [List.find?_cons_of_pos _ (by simp only [hid]; simp [hp])]
      rw [List.find?_cons_of_pos _ (by simp [hp])]
      simp
    · rw [List.map_cons]
      rw [List.find?_cons_of_neg _ (by simp only [hid]; simp [hp])]
      rw [List.find?_cons_of_neg _ (by simp [hp])]
      exact ih

theorem get_note_updateNote (s : Store) (n : Note) (nid : Nat) :
    (s.updateNote n).get_note nid =
      (s.get_note nid).map (fun m => if m.id == n.id then n else m) := by
  unfold Store.get_note Store.updateNote
  exact find?_map_update s.notes n nid

theorem get_note_id (s : Store) (nid : Nat) (note : Note)
    (h : s.get_note nid = some note) : note.id = nid ∧ note ∈ s.notes := by
  unfold Store.get_note at h
  exact ⟨by simpa using List.find?_some h, List.mem_of_find?_eq_some h⟩

theorem storeSim_refl (s : Store) : storeSim s s := ⟨rfl, rfl, rfl, fun _ => rfl⟩

theorem storeSim_trans {s1 s2 s3 : Store} (h1 : storeSim s1 s2) (h2 : storeSim s2 s3) :
    storeSim s1 s3 :=
  ⟨h2.1.trans h1.1, h2.2.1.trans h1.2.1, h2.2.2.1.trans h1.2.2.1,
   fun nid => (h2.2.2.2 nid).trans (h1.2.2.2 nid)⟩

theorem storeSim_get_notetype {s s2 : Store} (h : storeSim s s2) (ntid : Nat) :
    s2.get_notetype ntid = s.get_notetype ntid := by
  unfold Store.get_notetype
  rw [h.1]

theorem storeSim_isSome {s s2 : Store} (h : storeSim s s2) (nid : Nat) :
    (s2.get_note nid).isSome = (s.get_note nid).isSome := by
  have hh := h.2.2.2 nid
  cases h1 : s.get_note nid <;> cases h2 : s2.get_note nid <;>
    simp [h1, h2] at hh ⊢

theorem storeSim_updateNote (s : Store) (note note2 : Note) (nid0 : Nat)
    (hget : s.get_note nid0 = some note) (hid : note2.id = note.id)
    (hntid : note2.ntid = note.ntid) : storeSim s (s.updateNote note2) := by
  refine ⟨rfl, rfl, rfl, ?_⟩
  intro nid
  rw [get_note_updateNote]
  cases hm : s.get_note nid with
  | none => rfl
  | some m =>
    simp only [Option.map_some']
    by_cases hmid : m.id = note2.id
    · have h1 : m.id = nid := (get_note_id s nid m hm).1
      have h2 : note.id = nid0 := (get_note_id s nid0 note hget).1
      have he : nid = nid0 := by rw [← h1, hmid, hid, h2]
      subst he
      rw [hm] at hget
      have hmn : m = note := Option.some.inj hget
      subst hmn
      simp [hmid, hntid]
    · simp [hmid]

theorem processGroupNotes_ok_sim (ctx : FindReplaceContext) (fo : Option Nat) :
    ∀ (nids : List Nat) (s : Store) (n : Nat) (s2 : Store),
      processGroupNotes ctx fo s nids = .ok (n, s2) → storeSim s s2 := by
  intro nids
  induction nids with
  | nil =>
    intro s n s2 h
    simp only [processGroupNotes] at h
    obtain ⟨-, hs⟩ : 0 = n ∧ s = s2 := by simpa using h
    rw [← hs]
    exact storeSim_refl s
  | cons nid rest ih =>
    intro s n s2 h
    simp only [processGroupNotes] at h
    split at h
    · cases h
    · next note hget =>
      split at h
      · split at h
        · cases h
        · next sU hu =>
          split at h
          · cases h
          · next m s3 hrec =>
            obtain ⟨-, hs⟩ : m + 1 = n ∧ s3 = s2 := by simpa using h
            rcases update_note_inner_ok s _ sU hu with ⟨hUeq, -⟩
            have hsim1 : storeSim s sU := by
              rw [hUeq]
              exact storeSim_updateNote s note _ nid hget
                (processNote_id ctx fo note) (processNote_ntid ctx fo note)
            have hsim2 : storeSim sU s3 := ih sU m s3 hrec
            rw [← hs]
            exact storeSim_trans hsim1 hsim2
      · exact ih s n s2 h

theorem processGroups_ok_sim (ctx : FindReplaceContext) (usn : Nat) :
    ∀ (gs : List (Nat × List Nat)) (s : Store) (n : Nat) (s2 : Store),
      processGroups ctx usn s gs = .ok (n, s2) → storeSim s s2 := by
  intro gs
  induction gs with
  | nil =>
    intro s n s2 h
    simp only [processGroups] at h
    obtain ⟨-, hs⟩ : 0 = n ∧ s = s2 := by simpa using h
    rw [← hs]
    exact storeSim_refl s
  | cons g gs ih =>
    intro s n s2 h
    rcases g with ⟨ntid, group⟩
    simp only [processGroups] at h
    split at h
    · cases h
    · next nt hnt =>
      split at h
      · cases h
      · next k sG hG =>
        split at h
        · cases h
        · next m s3 hrec =>
          obtain ⟨-, hs⟩ : k + m = n ∧ s3 = s2 := by simpa using h
          rw [← hs]
          exact storeSim_trans (processGroupNotes_ok_sim ctx _ group s k sG hG)
            (ih sG m s3 hrec)

theorem processGroupNotes_ok_of_present (ctx : FindReplaceContext) (fo : Option Nat) :
    ∀ (nids : List Nat) (s : Store), s.failUpdate = [] →
      (∀ nid ∈ nids, (s.get_note nid).isSome = true) →
      ∃ n s2, processGroupNotes ctx fo s nids = .ok (n, s2) := by
  intro nids
  induction nids with
  | nil =>
    intro s _ _
    exact ⟨0, s, rfl⟩
  | cons nid rest ih =>
    intro s hf hp
    have hs : (s.get_note nid).isSome = true := hp nid (by simp)
    rcases Option.isSome_iff_exists.mp hs with ⟨note, hget⟩
    by_cases hch : (processNote ctx fo note).2 = true
    · have hu : s.update_note_inner (processNote ctx fo note).1 =
          .ok (s.updateNote (processNote ctx fo note).1) := by
        unfold Store.update_note_inner
        rw [hf]
        simp
      have hsim : storeSim s (s.updateNote (processNote ctx fo note).1) :=
        storeSim_updateNote s note _ nid hget (processNote_id ctx fo note)
          (processNote_ntid ctx fo note)
      have hf2 : (s.updateNote (processNote ctx fo note).1).failUpdate = [] := by
        rw [hsim.2.1]
        exact hf
      have hp2 : ∀ v ∈ rest,
          ((s.updateNote (processNote ctx fo note).1).get_note v).isSome = true := by
        intro v hv
        rw [storeSim_isSome hsim v]
        exact hp v (by simp [hv])
      rcases ih (s.updateNote (processNote ctx fo note).1) hf2 hp2 with ⟨m, s3, hrec⟩
      refine ⟨m + 1, s3, ?_⟩
      simp only [processGroupNotes]
      rw [hget]
      simp only []
      rw [if_pos hch, hu]
      simp only []
      rw [hrec]
    · have hch2 : (processNote ctx fo note).2 = false := by
        revert hch
        cases (processNote ctx fo note).2 <;> simp
      rcases ih s hf (fun v hv => hp v (by simp [hv])) with ⟨m, s3, hrec⟩
      refine ⟨m, s3, ?_⟩
      simp only [processGroupNotes]
      rw [hget]
      simp only []
      rw [if_neg (by rw [hch2]; exact Bool.false_ne_true), hrec]

theorem processGroupNotes_no_panic (ctx : FindReplaceContext) (fo : Option Nat) :
    ∀ (nids : List Nat) (s : Store),
      (∀ nid ∈ nids, (s.get_note nid).isSome = true) →
      processGroupNotes ctx fo s nids ≠ .error .panicked := by
  intro nids
  induction nids with
  | nil =>
    intro s _ h
    cases h
  | cons nid rest ih =>
    intro s hp h
    have hs : (s.get_note nid).isSome = true := hp nid (by simp)
    rcases Option.isSome_iff_exists.mp hs with ⟨note, hget⟩
    simp only [processGroupNotes] at h
    rw [hget] at h
    simp only [] at h
    by_cases hch : (processNote ctx fo note).2 = true
    · rw [if_pos hch] at h
      cases hu : s.update_note_inner (processNote ctx fo note).1 with
      | error e =>
        rw [hu] at h
        simp only [] at h
        unfold Store.update_note_inner at hu
        split at hu
        · have : e = .dbError := by
            have := Except.error.inj hu
            rw [this]
          rw [this] at h
          cases Except.error.inj h
        · cases hu
      | ok sU =>
        rw [hu] at h
        simp only [] at h
        rcases update_note_inner_ok s _ sU hu with ⟨hUeq, -⟩
        have hsim : storeSim s sU := by
          rw [hUeq]
          exact storeSim_updateNote s note _ nid hget
            (processNote_id ctx fo note) (processNote_ntid ctx fo note)
        have hp2 : ∀ v ∈ rest, (sU.get_note v).isSome = true := by
          intro v hv
          rw [storeSim_isSome hsim v]
          exact hp v (by simp [hv])
        cases hrec : processGroupNotes ctx fo sU rest with
        | error e =>
          rw [hrec] at h
          simp only [] at h
          have he : e = .panicked := Except.error.inj h
          rw [he] at hrec
          exact ih sU hp2 hrec
        | ok p =>
          rcases p with ⟨m, s3⟩
          rw [hrec] at h
          simp only [] at h
          cases h
    · rw [if_neg hch] at h
      exact ih s (fun v hv => hp v (by simp [hv])) h

theorem processGroups_no_panic (ctx : FindReplaceContext) (usn : Nat) :
    ∀ (gs : List (Nat × List Nat)) (s : Store),
      (∀ g ∈ gs, ∀ nid ∈ g.2, (s.get_note nid).isSome = true) →
      processGroups ctx usn s gs ≠ .error .panicked := by
  intro gs
  induction gs with
  | nil =>
    intro s _ h
    cases h
  | cons g gs ih =>
    intro s hp h
    rcases g with ⟨ntid, group⟩
    simp only [processGroups] at h
    cases hnt : s.get_notetype ntid with
    | none =>
      rw [hnt] at h
      simp only [] at h
      cases Except.error.inj h
    | some nt =>
      rw [hnt] at h
      simp only [] at h
      cases hG : processGroupNotes ctx (fieldOrdFor ctx nt) s group with
      | error e =>
        rw [hG] at h
        simp only [] at h
        have he : e = .panicked := Except.error.inj h
        rw [he] at hG
        exact processGroupNotes_no_panic ctx (fieldOrdFor ctx nt) group s
          (fun nid hnid => hp (ntid, group) (by simp) nid hnid) hG
      | ok p =>
        rcases p with ⟨k, sG⟩
        rw [hG] at h
        simp only [] at h
        have hsim : storeSim s sG := processGroupNotes_ok_sim ctx _ group s k sG hG
        have hp2 : ∀ g ∈ gs, ∀ nid ∈ g.2, (sG.get_note nid).isSome = true := by
          intro g hg nid hnid
          rw [storeSim_isSome hsim nid]
          exact hp g (by simp [hg]) nid hnid
        cases hrec : processGroups ctx usn sG gs with
        | error e =>
          rw [hrec] at h
          simp only [] at h
          have he : e = .panicked := Except.error.inj h
          rw [he] at hrec
          exact ih sG hp2 hrec
        | ok p =>
          rcases p with ⟨m, s3⟩
          rw [hrec] at h
          simp only [] at h
          cases h

theorem processGroups_error_iff (ctx : FindReplaceContext) (usn : Nat) :
    ∀ (gs : List (Nat × List Nat)) (s : Store), s.failUpdate = [] →
      (∀ g ∈ gs, ∀ nid ∈ g.2, (s.get_note nid).isSome = true) →
      ((∃ e, processGroups ctx usn s gs = .error e) ↔
        ∃ g ∈ gs, s.get_notetype g.1 = none) := by
  intro gs
  induction gs with
  | nil =>
    intro s hf hp
    constructor
    · rintro ⟨e, he⟩
      cases he
    · rintro ⟨g, hg, -⟩
      cases hg
  | cons g gs ih =>
    intro s hf hp
    rcases g with ⟨ntid, group⟩
    cases hnt : s.get_notetype ntid with
    | none =>
      constructor
      · intro _
        exact ⟨(ntid, group), by simp, hnt⟩
      · intro _
        refine ⟨.invalidInput "missing note type", ?_⟩
        simp only [processGroups]
        rw [hnt]
    | some nt =>
      rcases processGroupNotes_ok_of_present ctx (fieldOrdFor ctx nt) group s hf
          (fun nid hnid => hp (ntid, group) (by simp) nid hnid) with ⟨k, sG, hG⟩
      have hsim : storeSim s sG := processGroupNotes_ok_sim ctx _ group s k sG hG
      have hf2 : sG.failUpdate = [] := by rw [hsim.2.1]; exact hf
      have hp2 : ∀ g ∈ gs, ∀ nid ∈ g.2, (sG.get_note nid).isSome = true := by
        intro g hg nid hnid
        rw [storeSim_isSome hsim nid]
        exact hp g (by simp [hg]) nid hnid
      have hiff := ih sG hf2 hp2
      constructor
      · rintro ⟨e, he⟩
        simp only [processGroups] at he
        rw [hnt] at he
        simp only [] at he
        rw [hG] at he
        simp only [] at he
        cases hrec : processGroups ctx usn sG gs with
        | ok p =>
          rcases p with ⟨m, s3⟩
          rw [hrec] at he
          simp only [] at he
          cases he
        | error e2 =>
          rcases hiff.mp ⟨e2, hrec⟩ with ⟨g, hg, hnone⟩
          refine ⟨g, by simp [hg], ?_⟩
          rw [← storeSim_get_notetype hsim]
          exact hnone
      · rintro ⟨g, hg, hnone⟩
        rcases List.mem_cons.mp hg with hg1 | hg2
        · rw [hg1] at hnone
          simp only [] at hnone
          rw [hnt] at hnone
          cases hnone
        · have hnone2 : sG.get_notetype g.1 = none := by
            rw [storeSim_get_notetype hsim]
            exact hnone
          rcases hiff.mpr ⟨g, hg2, hnone2⟩ with ⟨e, he⟩
          refine ⟨e, ?_⟩
          simp only [processGroups]
          rw [hnt]
          simp only []
          rw [hG]
          simp only []
          rw [he]

theorem processGroups_ok_schemas (ctx : FindReplaceContext) (usn : Nat) :
    ∀ (gs : List (Nat × List Nat)) (s : Store) (n : Nat) (s2 : Store),
      processGroups ctx usn s gs = .ok (n, s2) →
      ∀ g ∈ gs, (s.get_notetype g.1).isSome = true := by
  intro gs
  induction gs with
  | nil =>
    intro s n s2 _ g hg
    cases hg
  | cons g0 gs ih =>
    intro s n s2 h g hg
    rcases g0 with ⟨ntid, group⟩
    simp only [processGroups] at h
    split at h
    · cases h
    · next nt hnt =>
      split at h
      · cases h
      · next k sG hG =>
        split at h
        · cases h
        · next m s3 hrec =>
          have hsim : storeSim s sG := processGroupNotes_ok_sim ctx _ group s k sG hG
          rcases List.mem_cons.mp hg with hg1 | hg2
          · rw [hg1]
            simp [hnt]
          · have := ih sG m s3 hrec g hg2
            rw [storeSim_get_notetype hsim g.1] at this
            exact this

theorem noTargetedMatch_processNote (ctx : FindReplaceContext) (s : Store) (note : Note)
    (nt : Notetype) (hnm : noTargetedMatch ctx s = true) (hmem : note ∈ s.notes)
    (hnt : s.get_notetype note.ntid = some nt) :
    processNote ctx (fieldOrdFor ctx nt) note = (note, false) := by
  unfold noTargetedMatch at hnm
  have h := List.all_eq_true.mp hnm note hmem
  rw [hnt] at h
  simp only [] at h
  cases hfo : fieldOrdFor ctx nt with
  | none =>
    rw [hfo] at h
    simp only [] at h
    have hall := List.all_eq_true.mp h
    have hid : ∀ t ∈ note.fields, applySubst ctx t = t := by
      intro t ht
      refine applySubst_of_no_match ctx t ?_
      have := hall t ht
      simpa using this
    have h1 : (replaceAllFields ctx note.fields).1 = note.fields := by
      rw [replaceAllFields_fst]
      calc note.fields.map (applySubst ctx) = note.fields.map id :=
            List.map_congr_left hid
        _ = note.fields := List.map_id note.fields
    have h2 : (replaceAllFields ctx note.fields).2 = false := by
      rw [replaceAllFields_snd]
      rw [List.any_eq_false]
      intro t ht
      have := hall t ht
      simpa using this
    simp only [processNote]
    rw [h1, h2]
  | some ord =>
    rw [hfo] at h
    simp only [] at h
    simp only [processNote, replaceFieldAt]
    cases hford : note.fields[ord]? with
    | none =>
      rfl
    | some txt =>
      rw [hford] at h
      simp only [] at h
      have hc : containsSub ctx.search.pat txt = false := by simpa using h
      simp only []
      rw [replace_text_eq_borrowed ctx txt hc]

theorem groups_present (s : Store) (nids0 : List Nat) :
    ∀ g ∈ groupRuns (s.note_ids_by_notetype nids0), ∀ v ∈ g.2,
      (s.get_note v).isSome = true := by
  intro g hg v hv
  have hp := groupRuns_sound _ g hg v hv
  rcases (mem_note_ids_by_notetype s nids0 g.1 v).mp hp with ⟨-, note, hget, -⟩
  simp [hget]

theorem groups_correspond (s : Store) (nids0 : List Nat) :
    ∀ g ∈ groupRuns (s.note_ids_by_notetype nids0), ∀ v ∈ g.2,
      ∃ note, s.get_note v = some note ∧ note.ntid = g.1 := by
  intro g hg v hv
  exact ((mem_note_ids_by_notetype s nids0 g.1 v).mp
    (groupRuns_sound _ g hg v hv)).2

theorem processGroupNotes_nomatch (ctx : FindReplaceContext) (s : Store) (nt : Notetype)
    (hnm : noTargetedMatch ctx s = true) :
    ∀ (vs : List Nat) (k : Nat), s.get_notetype k = some nt →
      (∀ v ∈ vs, ∃ note, s.get_note v = some note ∧ note.ntid = k) →
      processGroupNotes ctx (fieldOrdFor ctx nt) s vs = .ok (0, s) := by
  intro vs
  induction vs with
  | nil => intro k _ _; rfl
  | cons v rest ih =>
    intro k hk hcorr
    rcases hcorr v (by simp) with ⟨note, hget, hntid⟩
    have hmem : note ∈ s.notes := (get_note_id s v note hget).2
    have hpn : processNote ctx (fieldOrdFor ctx nt) note = (note, false) :=
      noTargetedMatch_processNote ctx s note nt hnm hmem (by rw [hntid]; exact hk)
    simp only [processGroupNotes]
    rw [hget]
    simp only []
    rw [if_neg (by rw [hpn]; exact Bool.false_ne_true)]
    exact ih k hk (fun v2 hv2 => hcorr v2 (by simp [hv2]))

theorem processGroups_nomatch (ctx : FindReplaceContext) (usn : Nat) (s : Store)
    (hnm : noTargetedMatch ctx s = true) :
    ∀ gs : List (Nat × List Nat),
      (∀ g ∈ gs, (s.get_notetype g.1).isSome = true) →
      (∀ g ∈ gs, ∀ v ∈ g.2, ∃ note, s.get_note v = some note ∧ note.ntid = g.1) →
      processGroups ctx usn s gs = .ok (0, s) := by
  intro gs
  induction gs with
  | nil => intro _ _; rfl
  | cons g gs ih =>
    intro hsch hcorr
    rcases g with ⟨ntid, group⟩
    rcases Option.isSome_iff_exists.mp (hsch (ntid, group) (by simp)) with ⟨nt, hnt⟩
    simp only [processGroups]
    rw [hnt]
    simp only []
    rw [processGroupNotes_nomatch ctx s nt hnm group ntid hnt
      (fun v hv => hcorr (ntid, group) (by simp) v hv)]
    simp only []
    rw [ih (fun g hg => hsch g (by simp [hg]))
      (fun g hg v hv => hcorr g (by simp [hg]) v hv)]

theorem no_match_run (ctx : FindReplaceContext) (s : Store)
    (hsch : ∀ p ∈ s.note_ids_by_notetype ctx.nids, (s.get_notetype p.1).isSome = true)
    (hnm : noTargetedMatch ctx s = true) :
    find_and_replace ctx s = (.ok 0, s) := by
  have hkeys : ∀ g ∈ groupRuns (s.note_ids_by_notetype ctx.nids),
      (s.get_notetype g.1).isSome = true := by
    intro g hg
    rcases List.exists_mem_of_ne_nil g.2 (groupRuns_nonempty _ g hg) with ⟨v, hv⟩
    exact hsch (g.1, v) (groupRuns_sound _ g hg v hv)
  have hinner : find_and_replace_inner ctx s.usn s = .ok (0, s) :=
    processGroups_nomatch ctx s.usn s hnm _ hkeys (groups_correspond s ctx.nids)
  unfold find_and_replace
  rw [hinner]

/-- C6: if the pattern matches nothing in any targeted field of any record
(and every resolved schema id loads, so the run can complete), `run` returns
a changed count of 0 and no record is persisted: the store, its write log
included, is returned untouched. -/
theorem c6_no_match_no_writes (ctx : FindReplaceContext) (s : Store)
    (hsch : (s.note_ids_by_notetype ctx.nids).all
      (fun p => (s.get_notetype p.1).isSome) = true)
    (hnm : noTargetedMatch ctx s = true) :
    find_and_replace ctx s = (.ok 0, s) :=
  no_match_run ctx s (fun p hp => by simpa using List.all_eq_true.mp hsch p hp) hnm

/-- Witness for C6 at concrete inputs: pattern `a` over a store whose only
record holds `x` returns 0 and leaves the store untouched. -/
theorem c6_no_match_no_writes_witness : find_and_replace c6ctx c6s = (.ok 0, c6s) :=
  c6_no_match_no_writes c6ctx c6s rfl rfl

/-- C4: `find_and_replace` runs the batch inside one transaction: on any
error anywhere in the batch (schema load, record load or persistence
failure), the caller observes the original store — no update persisted
earlier in the batch remains in effect; all updates commit together or none
does. -/
theorem c4_transactional_rollback (ctx : FindReplaceContext) (s : Store) (e : AnkiError)
    (h : (find_and_replace ctx s).1 = .error e) :
    (find_and_replace ctx s).2 = s := by
  unfold find_and_replace at h ⊢
  cases hi : find_and_replace_inner ctx s.usn s with
  | ok p =>
    rcases p with ⟨n, s3⟩
    rw [hi] at h
    simp at h
  | error e2 =>
    rfl

/-- Witness for C4 at concrete inputs: a two-schema batch whose first group
persists an update and whose second group hits a missing schema ends in an
error, and the observed store is the original one — the first group's write
was rolled back. -/
theorem c4_transactional_rollback_witness : (find_and_replace c4ctx c4s).2 = c4s :=
  c4_transactional_rollback c4ctx c4s (.invalidInput "missing note type") rfl

/-- C2 counterexample: a record id absent from the store yields no
`MissingRecord` error at all — id resolution silently drops it and `run`
succeeds with count 0 — contradicting the claim that a record id that
cannot be loaded surfaces an error. -/
theorem c2_missing_record_skipped :
    c2s.get_note 1 = none ∧ 1 ∈ c2ctx.nids
    ∧ find_and_replace c2ctx c2s = (.ok 0, c2s) :=
  ⟨rfl, by decide, rfl⟩

/-- C2 (amended): `run` returns the missing-schema error (an invalid-input
error) when a resolved schema id cannot be loaded, aborting the entire
operation with no partial effect and never panicking; record ids that
cannot be loaded are silently dropped by id resolution and produce no
error: in the absence of persistence failures, `run` errors exactly when
some resolved pair's schema id does not load. -/
theorem c2_error_contract (ctx : FindReplaceContext) (s : Store) :
    (∀ e, (find_and_replace ctx s).1 = .error e →
      (find_and_replace ctx s).2 = s ∧ e ≠ .panicked)
    ∧ (s.failUpdate = [] →
      ((∃ e, (find_and_replace ctx s).1 = .error e) ↔
        ∃ p ∈ s.note_ids_by_notetype ctx.nids, s.get_notetype p.1 = none)) := by
  constructor
  · intro e he
    constructor
    · unfold find_and_replace at he ⊢
      cases hi : find_and_replace_inner ctx s.usn s with
      | ok p =>
        rcases p with ⟨n, s3⟩
        rw [hi] at he
        simp at he
      | error e2 =>
        rfl
    · intro hep
      subst hep
      unfold find_and_replace at he
      cases hi : find_and_replace_inner ctx s.usn s with
      | ok p =>
        rcases p with ⟨n, s3⟩
        rw [hi] at he
        simp at he
      | error e2 =>
        rw [hi] at he
        simp only [] at he
        have he2 : e2 = .panicked := Except.error.inj he
        rw [he2] at hi
        exact processGroups_no_panic ctx s.usn _ s
          (fun g hg v hv => groups_present s ctx.nids g hg v hv) hi
  · intro hf
    have hiff := processGroups_error_iff ctx s.usn
      (groupRuns (s.note_ids_by_notetype ctx.nids)) s hf
      (fun g hg v hv => groups_present s ctx.nids g hg v hv)
    constructor
    · rintro ⟨e, he⟩
      have hinner : ∃ e2, find_and_replace_inner ctx s.usn s = .error e2 := by
        unfold find_and_replace at he
        cases hi : find_and_replace_inner ctx s.usn s with
        | ok p =>
          rcases p with ⟨n, s3⟩
          rw [hi] at he
          simp at he
        | error e2 =>
          exact ⟨e2, rfl⟩
      rcases hiff.mp hinner with ⟨g, hg, hnone⟩
      rcases List.exists_mem_of_ne_nil g.2 (groupRuns_nonempty _ g hg) with ⟨v, hv⟩
      exact ⟨(g.1, v), groupRuns_sound _ g hg v hv, hnone⟩
    · rintro ⟨p, hp, hnone⟩
      rcases p with ⟨k, v⟩
      rcases groupRuns_complete _ k v hp with ⟨vs, hmem, -⟩
      rcases hiff.mpr ⟨(k, vs), hmem, hnone⟩ with ⟨e, he⟩
      refine ⟨e, ?_⟩
      unfold find_and_replace
      have he2 : find_and_replace_inner ctx s.usn s = .error e := he
      rw [he2]

/-- Witness for C2 (amended) at concrete inputs: a store whose only record
references an absent schema makes `run` abort with the missing-note-type
error, no panic, and the original store observed; the error's existence also
follows from the characterization. -/
theorem c2_error_contract_witness :
    ((find_and_replace c2wctx c2ws).2 = c2ws
      ∧ AnkiError.invalidInput "missing note type" ≠ .panicked)
    ∧ ∃ e, (find_and_replace c2wctx c2ws).1 = .error e :=
  ⟨(c2_error_contract c2wctx c2ws).1 (.invalidInput "missing note type") rfl,
   ((c2_error_contract c2wctx c2ws).2 rfl).mpr ⟨(5, 1), by decide, rfl⟩⟩

/-- C9: when a run succeeds and the pattern no longer matches in any
targeted field of the resulting store (the premise of the idempotence
claim), re-running the same substitution returns a changed count of 0 and
changes nothing. -/
theorem c9_idempotent (ctx : FindReplaceContext) (s : Store) (n : Nat) (s2 : Store)
    (hrun : find_and_replace ctx s = (.ok n, s2))
    (hnm : noTargetedMatch ctx s2 = true) :
    find_and_replace ctx s2 = (.ok 0, s2) := by
  have hinner : find_and_replace_inner ctx s.usn s = .ok (n, s2) := by
    unfold find_and_replace at hrun
    cases hi : find_and_replace_inner ctx s.usn s with
    | ok p =>
      rcases p with ⟨k, s3⟩
      rw [hi] at hrun
      simp only [] at hrun
      have hk : k = n := Except.ok.inj (congrArg Prod.fst hrun)
      have hs : s3 = s2 := congrArg Prod.snd hrun
      rw [hk, hs]
    | error e =>
      rw [hi] at hrun
      simp at hrun
  have hsim : storeSim s s2 := processGroups_ok_sim ctx s.usn _ s n s2 hinner
  have hpairs : s2.note_ids_by_notetype ctx.nids = s.note_ids_by_notetype ctx.nids := by
    unfold Store.note_ids_by_notetype
    congr 1
    apply List.filterMap_congr
    intro nid _
    have hh := hsim.2.2.2 nid
    cases h1 : s.get_note nid <;> cases h2 : s2.get_note nid <;>
      simp [h1, h2] at hh ⊢
    exact hh
  have hschemas : ∀ p ∈ s.note_ids_by_notetype ctx.nids,
      (s.get_notetype p.1).isSome = true := by
    intro p hp
    rcases p with ⟨k, v⟩
    rcases groupRuns_complete _ k v hp with ⟨vs, hmem, -⟩
    exact processGroups_ok_schemas ctx s.usn _ s n s2 hinner (k, vs) hmem
  have hschemas2 : ∀ p ∈ s2.note_ids_by_notetype ctx.nids,
      (s2.get_notetype p.1).isSome = true := by
    intro p hp
    rw [hpairs] at hp
    rw [storeSim_get_notetype hsim p.1]
    exact hschemas p hp
  exact no_match_run ctx s2 hschemas2 hnm

/-- Witness for C9 at concrete inputs: after replacing `a` by `b` in the
one-record store (count 1), the pattern no longer matches and the second run
returns 0 changing nothing. -/
theorem c9_idempotent_witness : find_and_replace c9ctx c9s2 = (.ok 0, c9s2) :=
  c9_idempotent c9ctx c9s 1 c9s2 rfl rfl
